import Mathlib

/-!
Verification of the chess-lib move engine (src/chess.rs, src/mover.rs).

The Rust code is shallowly embedded: pieces, boards and moves become Lean
structures, `usize` becomes `Nat`, `i32` becomes `Int`, and every place where
the Rust code can panic (an `unwrap()` on `None`, an out-of-bounds array
index, or a `usize` subtraction that underflows in a debug build) is modelled
by an explicit panic outcome (`none` / `.panic`).  Fallible functions return
the error value the source constructs at the corresponding `return Err(...)`.
-/

namespace Chess

/-- Mirrors `enum Class` in src/chess.rs. -/
inductive Class where
  | Pawn | Knight | Bishop | Rook | Queen | King
deriving DecidableEq, Repr

/-- Mirrors `enum Color` in src/chess.rs. -/
inductive Color where
  | White | Black
deriving DecidableEq, Repr

/-- Mirrors `struct Piece` in src/chess.rs.  The source field `class` is a
Lean keyword and is rendered here as `cls`. -/
structure Piece where
  cls : Class
  color : Color
  moves : Nat
deriving DecidableEq, Repr

/-- Mirrors `enum Error` in src/chess.rs. -/
inductive Error where
  | InvalidInput
  | InvalidFen (detail : String)
  | InvalidMove (reason : String)
  | SaveFailed (detail : String)
deriving DecidableEq, Repr

/-- Mirrors `struct Move` in src/mover.rs. -/
structure Move where
  from_file : Nat
  from_rank : Nat
  to_file : Nat
  to_rank : Nat
deriving DecidableEq, Repr

/-- Mirrors `struct Board` in src/chess.rs.  The 8x8 grid of
`Option<Piece>` indexed by `[file][rank]` is a function on `Fin 8`. -/
structure Board where
  pieces : Fin 8 → Fin 8 → Option Piece
  turn : Color
  captured : List Piece
  moves : List String
  white_can_castle_kingside : Bool
  white_can_castle_queenside : Bool
  black_can_castle_kingside : Bool
  black_can_castle_queenside : Bool
  en_passant : Option (Nat × Nat)
  halfmove_clock : Nat
  fullmove_number : Nat
deriving DecidableEq

/-- `Board::new()` from src/chess.rs: an empty board.  The Rust function
returns `Ok(board)` unconditionally, so the `Result` wrapper is dropped. -/
def Board.new : Board where
  pieces := fun _ _ => none
  turn := .White
  captured := []
  moves := []
  white_can_castle_kingside := true
  white_can_castle_queenside := true
  black_can_castle_kingside := true
  black_can_castle_queenside := true
  en_passant := none
  halfmove_clock := 0
  fullmove_number := 1

/-- `Board::get_piece` with the implicit `usize` array indexing of
`self.pieces[file][rank]`: `none` models the index panic for coordinates
outside the board, `some cell` is the cell read. -/
def Board.get? (b : Board) (file rank : Nat) : Option (Option Piece) :=
  if h : file < 8 ∧ rank < 8 then some (b.pieces ⟨file, h.1⟩ ⟨rank, h.2⟩) else none

/-- `Board::get_piece` reached through an `i32 as usize` cast (the path walks
in src/mover.rs): a negative coordinate wraps to a huge `usize` and panics,
so any coordinate outside `[0, 8)` is the panic case `none`. -/
def Board.getI? (b : Board) (file rank : Int) : Option (Option Piece) :=
  if h : 0 ≤ file ∧ file < 8 ∧ 0 ≤ rank ∧ rank < 8 then
    some (b.pieces ⟨file.toNat, by omega⟩ ⟨rank.toNat, by omega⟩)
  else none

/-- In-bounds cell lookup used to state claims (`none` when off the board). -/
def Board.cellN (b : Board) (file rank : Nat) : Option Piece :=
  if h : file < 8 ∧ rank < 8 then b.pieces ⟨file, h.1⟩ ⟨rank, h.2⟩ else none

/-- `Board::set_piece` / `Board::clear_piece` as a grid update.  All call
sites in the embedded code are dominated by a successful bounds check, so the
out-of-range no-op branch is never reached. -/
def setP (g : Fin 8 → Fin 8 → Option Piece) (file rank : Nat) (p : Option Piece) :
    Fin 8 → Fin 8 → Option Piece :=
  fun f r => if (f : Nat) = file ∧ (r : Nat) = rank then p else g f r

/-- `Board::is_en_passant` from src/chess.rs. -/
def Board.is_en_passant (b : Board) (file rank : Nat) : Bool :=
  match b.en_passant with
  | some (f, r) => file = f ∧ rank = r
  | none => false

/-- `Move::distance` from src/mover.rs: taxicab distance
`|from_file - to_file| + |from_rank - to_rank|` computed on `isize`. -/
def Move.distance (m : Move) : Nat :=
  (((m.from_file : Int) - m.to_file).natAbs + ((m.from_rank : Int) - m.to_rank).natAbs)

/-- Result of a validation function: `panic` models a Rust panic, `err e`
models `Err(e)`, `ok` models `Ok(())`. -/
inductive VResult where
  | panic
  | err (e : Error)
  | ok
deriving DecidableEq, Repr

/-- Outcome of `Board::move_piece` (which mutates `&mut self`): `panic`
models a Rust panic; `result b r` is the board state on return together with
`none` for `Ok(())` or `some e` for `Err(e)`. -/
inductive MoveOutcome where
  | panic
  | result (b : Board) (r : Option Error)
deriving DecidableEq

/-- ASCII lowercasing of a string, modelling `str::to_lowercase` on the
ASCII inputs the codec deals with. -/
def lowercaseStr (s : String) : String :=
  String.mk (s.data.map Char.toLower)

instance : DecidableEq (Except Error Move) := fun x y =>
  match x, y with
  | .error a, .error b =>
    if h : a = b then .isTrue (by rw [h]) else .isFalse (by simp [h])
  | .error _, .ok _ => .isFalse (by simp)
  | .ok _, .error _ => .isFalse (by simp)
  | .ok a, .ok b =>
    if h : a = b then .isTrue (by rw [h]) else .isFalse (by simp [h])

/-- `TryFrom<&str> for Move` (decode) from src/mover.rs.  `none` models a
panic: a missing character (`chars().nth(i).unwrap()` on a short string) or a
`usize` subtraction that underflows (debug-build semantics; in a release
build the wrapped value would instead be caught by the bounds check). -/
def decode (s : String) : Option (Except Error Move) :=
  let m : List Char := s.data.map Char.toLower
  match m.get? 0, m.get? 1, m.get? 2, m.get? 3 with
  | some c0, some c1, some c2, some c3 =>
    if c0.toNat < 97 ∨ c1.toNat < 49 ∨ c2.toNat < 97 ∨ c3.toNat < 49 then none
    else
      let from_file := c0.toNat - 97
      let from_rank := c1.toNat - 49
      let to_file := c2.toNat - 97
      let to_rank := c3.toNat - 49
      if from_file > 7 ∨ from_rank > 7 ∨ to_file > 7 ∨ to_rank > 7 then
        some (.error (.InvalidMove "Move is out of bounds"))
      else
        some (.ok ⟨from_file, from_rank, to_file, to_rank⟩)
  | _, _, _, _ => none

/-- `From<Move> for String` (encode) from src/mover.rs.  The `(x + 97) as u8`
cast wraps modulo 256. -/
def encode (m : Move) : String :=
  String.mk [Char.ofNat ((m.from_file + 97) % 256), Char.ofNat ((m.from_rank + 49) % 256),
             Char.ofNat ((m.to_file + 97) % 256), Char.ofNat ((m.to_rank + 49) % 256)]

/-- The file direction local (`let file_direction = if to_file > from_file { 1 } else { -1 }`)
shared by the bishop and queen walks in src/mover.rs. -/
def Move.fdir (m : Move) : Int := if m.to_file > m.from_file then 1 else -1

/-- The rank direction local of the bishop and queen walks in src/mover.rs. -/
def Move.rdir (m : Move) : Int := if m.to_rank > m.from_rank then 1 else -1

/-- Cell fetched by a straight-line walk: when `horiz` the varying coordinate
is the file (`get_piece(pos, fixed)`), otherwise the rank
(`get_piece(fixed, pos)`). -/
def lineCell (b : Board) (horiz : Bool) (fixed pos : Int) : Option (Option Piece) :=
  if horiz then b.getI? pos fixed else b.getI? fixed pos

/-- The straight-line blocking loops of `validate_rook` / `validate_queen`
(`while pos != to_pos { check occupancy; pos += direction }`).  The loop in
the source terminates by reaching `to_pos`, by returning the path-blocked
error, or by panicking on an out-of-range index; `fuel` only bounds the
recursion and is chosen large enough (16) that the `fuel = 0` case is never
reached from the validators. -/
def walkLine (b : Board) (horiz : Bool) (fixed pos toPos d : Int) (e : Error)
    (fuel : Nat) : VResult :=
  match fuel with
  | 0 => .panic
  | fuel' + 1 =>
    if pos = toPos then .ok
    else
      match lineCell b horiz fixed pos with
      | none => .panic
      | some (some _) => .err e
      | some none => walkLine b horiz fixed (pos + d) toPos d e fuel'

/-- The diagonal blocking loop of `validate_bishop` / `validate_queen`
(`while file != to_file && rank != to_rank { ... }`), with `fuel` as in
`walkLine`. -/
def walkDiag (b : Board) (file rank toFile toRank fd rd : Int) (e : Error)
    (fuel : Nat) : VResult :=
  match fuel with
  | 0 => .panic
  | fuel' + 1 =>
    if file ≠ toFile ∧ rank ≠ toRank then
      match b.getI? file rank with
      | none => .panic
      | some (some _) => .err e
      | some none => walkDiag b (file + fd) (rank + rd) toFile toRank fd rd e fuel'
    else .ok

/-- `Move::validate_pawn` from src/mover.rs, with the early returns
flattened into an if-chain in source order. -/
def Move.validate_pawn (m : Move) (b : Board) : VResult :=
  match b.get? m.from_file m.from_rank with
  | none => .panic
  | some none => .panic
  | some (some piece) =>
    if piece.color = Color.White ∧ m.to_rank < m.from_rank then
      .err (.InvalidMove "Pawn can only move forward")
    else if piece.color = Color.Black ∧ m.to_rank > m.from_rank then
      .err (.InvalidMove "Pawn can only move forward")
    else
      let dr : Int := (m.to_rank : Int) - (m.from_rank : Int)
      let df : Int := (m.to_file : Int) - (m.from_file : Int)
      if piece.moves = 0 ∧ (dr.natAbs > 2 ∨ dr.natAbs < 1) then
        .err (.InvalidMove
          ("Pawn can only move one or two squares forward on the first move, attempted to move "
            ++ toString dr.natAbs ++ " squares"))
      else if piece.moves ≠ 0 ∧ dr.natAbs ≠ 1 then
        .err (.InvalidMove "Pawn can only move one square forward")
      else
        match b.get? m.to_file m.to_rank with
        | none => .panic
        | some cell =>
          let target : Option Piece :=
            match cell with
            | some t => if t.color = piece.color then none else some t
            | none => none
          match target with
          | some _ =>
            if df.natAbs ≠ 1 then .err (.InvalidMove "Pawn can only capture diagonally")
            else .ok
          | none =>
            if b.is_en_passant m.to_file m.to_rank then .ok
            else if df.natAbs ≠ 0 then .err (.InvalidMove "Pawn can not move diagonally")
            else .ok

/-- `Move::validate_knight` from src/mover.rs. -/
def Move.validate_knight (m : Move) (_ : Board) : VResult :=
  let df : Int := (m.to_file : Int) - (m.from_file : Int)
  let dr : Int := (m.to_rank : Int) - (m.from_rank : Int)
  if df.natAbs = 2 ∧ dr.natAbs = 1 then .ok
  else if df.natAbs = 1 ∧ dr.natAbs = 2 then .ok
  else
    .err (.InvalidMove
      "Knight can only move two squares forward and one square sideways, or two squares sideways and one square forward")

/-- `Move::validate_bishop` from src/mover.rs. -/
def Move.validate_bishop (m : Move) (b : Board) : VResult :=
  let df : Int := (m.to_file : Int) - (m.from_file : Int)
  let dr : Int := (m.to_rank : Int) - (m.from_rank : Int)
  if df.natAbs ≠ dr.natAbs then .err (.InvalidMove "Bishop can only move diagonally")
  else
    walkDiag b ((m.from_file : Int) + m.fdir) ((m.from_rank : Int) + m.rdir)
      (m.to_file : Int) (m.to_rank : Int) m.fdir m.rdir
      (.InvalidMove "Bishop can not move through pieces") 16

/-- `Move::validate_rook` from src/mover.rs. -/
def Move.validate_rook (m : Move) (b : Board) : VResult :=
  if m.from_file ≠ m.to_file ∧ m.from_rank ≠ m.to_rank then
    .err (.InvalidMove "Rook can only move horizontally or vertically")
  else if m.from_file = m.to_file then
    let d : Int := if m.to_rank > m.from_rank then 1 else -1
    walkLine b false (m.from_file : Int) ((m.from_rank : Int) + d) (m.to_rank : Int) d
      (.InvalidMove "Rook can not move through pieces") 16
  else
    let d : Int := if m.to_file > m.from_file then 1 else -1
    walkLine b true (m.from_rank : Int) ((m.from_file : Int) + d) (m.to_file : Int) d
      (.InvalidMove "Rook can not move through pieces") 16

/-- `Move::validate_queen` from src/mover.rs. -/
def Move.validate_queen (m : Move) (b : Board) : VResult :=
  let df : Int := (m.to_file : Int) - (m.from_file : Int)
  let dr : Int := (m.to_rank : Int) - (m.from_rank : Int)
  if m.from_file ≠ m.to_file ∧ m.from_rank ≠ m.to_rank ∧ df.natAbs ≠ dr.natAbs then
    .err (.InvalidMove "Queen can only move horizontally, vertically, or diagonally")
  else if m.from_file = m.to_file then
    let d : Int := if m.to_rank > m.from_rank then 1 else -1
    walkLine b false (m.from_file : Int) ((m.from_rank : Int) + d) (m.to_rank : Int) d
      (.InvalidMove "Queen can not move through pieces") 16
  else if m.from_rank = m.to_rank then
    let d : Int := if m.to_file > m.from_file then 1 else -1
    walkLine b true (m.from_rank : Int) ((m.from_file : Int) + d) (m.to_file : Int) d
      (.InvalidMove "Queen can not move through pieces") 16
  else
    walkDiag b ((m.from_file : Int) + m.fdir) ((m.from_rank : Int) + m.rdir)
      (m.to_file : Int) (m.to_rank : Int) m.fdir m.rdir
      (.InvalidMove "Queen can not move through pieces") 16

/-- The `if let Some(rook) = ... { if rook.class == Rook && ... }` test of a
castling pattern in `Move::validate_king`. -/
def castleRook (cell : Option Piece) (c : Color) : Prop :=
  match cell with
  | some rook => rook.cls = Class.Rook ∧ rook.color = c ∧ rook.moves = 0
  | none => False

instance (cell : Option Piece) (c : Color) : Decidable (castleRook cell c) :=
  match cell with
  | some rook =>
    inferInstanceAs (Decidable (rook.cls = Class.Rook ∧ rook.color = c ∧ rook.moves = 0))
  | none => inferInstanceAs (Decidable False)

/-- `Move::validate_king` from src/mover.rs.  Each castling pattern in the
source is a nest of `if`s without `else` whose failure falls through to the
next pattern; here each pattern is one conjunction. -/
def Move.validate_king (m : Move) (b : Board) : VResult :=
  match b.get? m.from_file m.from_rank with
  | none => .panic
  | some none => .panic
  | some (some piece) =>
    let df : Int := (m.to_file : Int) - (m.from_file : Int)
    let dr : Int := (m.to_rank : Int) - (m.from_rank : Int)
    if piece.color = Color.White ∧ piece.moves = 0 ∧ m.from_file = 4 ∧ m.from_rank = 0
        ∧ m.to_file = 6 ∧ m.to_rank = 0
        ∧ castleRook (b.pieces 7 0) Color.White
        ∧ b.pieces 5 0 = none ∧ b.pieces 6 0 = none then .ok
    else if piece.color = Color.White ∧ piece.moves = 0 ∧ m.from_file = 4 ∧ m.from_rank = 0
        ∧ m.to_file = 2 ∧ m.to_rank = 0
        ∧ castleRook (b.pieces 0 0) Color.White
        ∧ b.pieces 1 0 = none ∧ b.pieces 2 0 = none ∧ b.pieces 3 0 = none then .ok
    else if piece.color = Color.Black ∧ piece.moves = 0 ∧ m.from_file = 4 ∧ m.from_rank = 7
        ∧ m.to_file = 6 ∧ m.to_rank = 7
        ∧ castleRook (b.pieces 7 7) Color.Black
        ∧ b.pieces 5 7 = none ∧ b.pieces 6 7 = none then .ok
    else if piece.color = Color.Black ∧ piece.moves = 0 ∧ m.from_file = 4 ∧ m.from_rank = 7
        ∧ m.to_file = 2 ∧ m.to_rank = 7
        ∧ castleRook (b.pieces 0 7) Color.Black
        ∧ b.pieces 1 7 = none ∧ b.pieces 2 7 = none ∧ b.pieces 3 7 = none then .ok
    else if df.natAbs > 1 ∨ dr.natAbs > 1 then
      .err (.InvalidMove "King can only move one square in any direction")
    else .ok

/-- The `match piece.class` dispatch inside `Move::validate`. -/
def Move.classValidate (m : Move) (p : Piece) (b : Board) : VResult :=
  match p.cls with
  | .Pawn => m.validate_pawn b
  | .Knight => m.validate_knight b
  | .Bishop => m.validate_bishop b
  | .Rook => m.validate_rook b
  | .Queen => m.validate_queen b
  | .King => m.validate_king b

/-- `Move::validate` from src/mover.rs. -/
def Move.validate (m : Move) (b : Board) : VResult :=
  match b.get? m.from_file m.from_rank with
  | none => .panic
  | some none => .err (.InvalidMove "No piece on square")
  | some (some piece) =>
    if piece.color ≠ b.turn then .err (.InvalidMove "Not your piece")
    else
      match m.classValidate piece b with
      | .panic => .panic
      | .err e => .err e
      | .ok =>
        match b.get? m.to_file m.to_rank with
        | none => .panic
        | some (some t) =>
          if t.color = b.turn then .err (.InvalidMove "Can't capture your own piece")
          else .ok
        | some none => .ok

/-- `str::trim`: leading and trailing whitespace removed.  Implemented
structurally (Lean's own `String.trim` is defined by well-founded recursion
on byte positions and does not reduce in the kernel). -/
def trimStr (s : String) : String :=
  String.mk (((s.data.dropWhile Char.isWhitespace).reverse.dropWhile Char.isWhitespace).reverse)

/-- `str::split(" ")`: split on every single space, keeping empty pieces. -/
def splitSpacesAux : List Char → List Char → List String
  | [], acc => [String.mk acc.reverse]
  | c :: rest, acc =>
    if c = ' ' then String.mk acc.reverse :: splitSpacesAux rest []
    else splitSpacesAux rest (c :: acc)

/-- `str::split(" ")` on a whole string. -/
def splitSpaces (s : String) : List String := splitSpacesAux s.data []

/-- The `m.to_rank - 1` / `m.to_rank + 1` rank computation of
`Board::move_piece` (en-passant victim rank, en-passant target rank): for
White the `usize` subtraction panics (`none`) when `to_rank` is 0. -/
def behindRank (c : Color) (to_rank : Nat) : Option Nat :=
  match c with
  | .White => if to_rank = 0 then none else some (to_rank - 1)
  | .Black => some (to_rank + 1)

/-- The en-passant capture block of `Board::move_piece`
(src/chess.rs lines 221-231): if the destination is the current en-passant
target, the pawn one rank behind (White) or ahead (Black) of it is captured
and its square cleared; `none` models the panics (rank underflow or
overflow, unwrap of an empty square). -/
def epCaptureStep (b : Board) (piece : Piece) (m : Move) : Option Board :=
  if b.is_en_passant m.to_file m.to_rank then
    match behindRank piece.color m.to_rank with
    | none => none
    | some rank =>
      match b.get? m.to_file rank with
      | none => none
      | some none => none
      | some (some victim) =>
        some { b with halfmove_clock := 0,
                      captured := b.captured ++ [victim],
                      pieces := setP b.pieces m.to_file rank none }
  else some b

/-- The direct-capture block of `Board::move_piece` (lines 233-238). -/
def captureStep (b : Board) (target : Option Piece) : Board :=
  match target with
  | some capture => { b with halfmove_clock := 0, captured := b.captured ++ [capture] }
  | none => b

/-- The pawn block of `Board::move_piece` (lines 240-254): reset the
halfmove clock and set or clear the en-passant target according to
`Move::distance`. -/
def pawnStep (b : Board) (piece : Piece) (m : Move) : Option Board :=
  if piece.cls = Class.Pawn then
    let b := { b with halfmove_clock := 0 }
    if m.distance = 2 then
      match behindRank piece.color m.to_rank with
      | none => none
      | some rank => some { b with en_passant := some (m.to_file, rank) }
    else some { b with en_passant := none }
  else some b

/-- The castling block of `Board::move_piece` (lines 256-267): when a king
lands on file 6 or 2, fetch-and-unwrap the rook from file 7 or 0 of the
destination rank and relocate it to file 5 or 3. -/
def castleStep (b : Board) (piece : Piece) (m : Move) : Option Board :=
  if piece.cls = Class.King then
    if m.to_file = 6 then
      match b.get? 7 m.to_rank with
      | none => none
      | some none => none
      | some (some rook) =>
        some { b with pieces := setP (setP b.pieces 5 m.to_rank (some rook)) 7 m.to_rank none }
    else if m.to_file = 2 then
      match b.get? 0 m.to_rank with
      | none => none
      | some none => none
      | some (some rook) =>
        some { b with pieces := setP (setP b.pieces 3 m.to_rank (some rook)) 0 m.to_rank none }
    else some b
  else some b

/-- The closing block of `Board::move_piece` (lines 269-282): bump the
moved piece's counter, place it, clear the origin, push the notation onto
the history and flip the turn (incrementing the fullmove number after a
Black move). -/
def finishStep (b : Board) (piece : Piece) (data : String) (m : Move) : Board :=
  { b with
    pieces := setP (setP b.pieces m.to_file m.to_rank
                      (some { piece with moves := piece.moves + 1 }))
                m.from_file m.from_rank none,
    moves := b.moves ++ [data],
    turn := match b.turn with | .White => .Black | .Black => .White,
    fullmove_number :=
      match b.turn with
      | .White => b.fullmove_number
      | .Black => b.fullmove_number + 1 }

/-- The body of `Board::move_piece` (src/chess.rs lines 217-284) after
validation has succeeded, as a function from the board to the final board;
`none` models a panic.  Mutation order follows the source: halfmove
increment, en-passant capture, direct capture, pawn en-passant bookkeeping,
castling rook relocation, piece relocation, history push, turn flip. -/
def applyCore (b : Board) (data : String) (m : Move) : Option Board :=
  let b := { b with halfmove_clock := b.halfmove_clock + 1 }
  match b.get? m.from_file m.from_rank with
  | none => none
  | some none => none
  | some (some piece) =>
    match epCaptureStep b piece m with
    | none => none
    | some b2 =>
      match b2.get? m.to_file m.to_rank with
      | none => none
      | some target =>
        match pawnStep (captureStep b2 target) piece m with
        | none => none
        | some b4 =>
          match castleStep b4 piece m with
          | none => none
          | some b5 => some (finishStep b5 piece data m)

/-- `Board::move_piece` from src/chess.rs. -/
def movePiece (b : Board) (s : String) : MoveOutcome :=
  let data := trimStr s
  match decode data with
  | none => .panic
  | some (.error e) => .result b (some e)
  | some (.ok m) =>
    match m.validate b with
    | .panic => .panic
    | .err e => .result b (some e)
    | .ok =>
      match applyCore b data m with
      | none => .panic
      | some b2 => .result b2 none

/-- The replay loop of `Board::load` (src/chess.rs lines 493-498): each
token is trimmed, empty tokens are skipped, and the first failing
`move_piece` aborts the load. -/
def replayMoves (b : Board) : List String → MoveOutcome
  | [] => .result b none
  | tok :: rest =>
    let tok := trimStr tok
    if tok.length > 0 then
      match movePiece b tok with
      | .panic => .panic
      | .result b2 (some e) => .result b2 (some e)
      | .result b2 none => replayMoves b2 rest
    else replayMoves b rest

/-- `Board::load` from src/chess.rs, applied to the contents read from the
file: trims, splits on single spaces, resets the board via `Board::reset`
(which is `*self = Board::new()`, the empty board), then replays. -/
def loadContents (_ : Board) (contents : String) : MoveOutcome :=
  replayMoves Board.new (splitSpaces (trimStr contents))

/-- Back-rank piece layout of the starting position. -/
def backRank (f : Nat) : Class :=
  match f with
  | 0 => .Rook
  | 1 => .Knight
  | 2 => .Bishop
  | 3 => .Queen
  | 4 => .King
  | 5 => .Bishop
  | 6 => .Knight
  | _ => .Rook

/-- One cell of the starting position, `[file][rank]`. -/
def startCell (f r : Nat) : Option Piece :=
  match r with
  | 0 => some ⟨backRank f, .White, 0⟩
  | 1 => some ⟨.Pawn, .White, 0⟩
  | 6 => some ⟨.Pawn, .Black, 0⟩
  | 7 => some ⟨backRank f, .Black, 0⟩
  | _ => none

/-- The board produced by `Board::default_board()`, i.e. `from_fen` applied
to `DEFAULT_BOARD` (`rnbqkbnr/pppppppp/8/8/8/8/PPPPPPPP/RNBQKBNR w KQkq - 0 1`):
the standard starting position, White to move, all castling flags set,
no en-passant target, clocks 0 and 1, empty history.  The FEN parser itself
is not under scrutiny in any claim, so the position it produces is given
directly. -/
def startingBoard : Board :=
  { Board.new with pieces := fun f r => startCell f.val r.val }

/-- Whether a `move_piece` outcome is `Ok(())`. -/
def isOk : MoveOutcome → Bool
  | .result _ none => true
  | _ => false

/-- The final board of a successful outcome. -/
def finalBoard : MoveOutcome → Option Board
  | .result b none => some b
  | _ => none

/-- All four squares of a move lie on the board. -/
def Move.inBoard (m : Move) : Prop :=
  m.from_file < 8 ∧ m.from_rank < 8 ∧ m.to_file < 8 ∧ m.to_rank < 8

/-- `x` lies strictly between `a` and `b` (in either order). -/
def betN (a b x : Nat) : Prop := (a < x ∧ x < b) ∨ (b < x ∧ x < a)

/-- The move is a straight line (shared file or shared rank) and some square
strictly between origin and destination is occupied. -/
def straightBlocked (b : Board) (m : Move) : Prop :=
  (m.from_file = m.to_file ∧ ∃ r, betN m.from_rank m.to_rank r ∧ b.cellN m.from_file r ≠ none)
  ∨ (m.from_rank = m.to_rank ∧ ∃ f, betN m.from_file m.to_file f ∧ b.cellN f m.from_rank ≠ none)

/-- Some square strictly between origin and destination of a diagonal move
(walking in the source's step directions) is occupied. -/
def diagBlocked (b : Board) (m : Move) : Prop :=
  ∃ k : Nat, 0 < k ∧ k < ((m.to_file : Int) - (m.from_file : Int)).natAbs ∧
    b.cellN ((m.from_file : Int) + m.fdir * k).toNat ((m.from_rank : Int) + m.rdir * k).toNat ≠ none

/-- The board of FEN `8/8/8/5K2/8/8/8/8 w - - 0 1`: a lone unmoved White
king on f5 (file 5, rank 4), White to move. -/
def kingBoard : Board :=
  { Board.new with
    pieces := fun f r => if f.val = 5 ∧ r.val = 4 then some ⟨.King, .White, 0⟩ else none,
    white_can_castle_kingside := false,
    white_can_castle_queenside := false,
    black_can_castle_kingside := false,
    black_can_castle_queenside := false }

/-- The starting position with a stale en-passant target, as left behind by
a two-square pawn advance answered by a non-pawn reply. -/
def epBoard : Board := { startingBoard with en_passant := some (4, 2) }

/-- The file letters a-h accepted case-insensitively by the codec. -/
def fileChars : List Char :=
  ['a', 'b', 'c', 'd', 'e', 'f', 'g', 'h', 'A', 'B', 'C', 'D', 'E', 'F', 'G', 'H']

/-- The rank digits 1-8 accepted by the codec. -/
def rankChars : List Char := ['1', '2', '3', '4', '5', '6', '7', '8']

/-- The cell a straight-line walk inspects, in `Nat` coordinates. -/
def lineCellN (b : Board) (horiz : Bool) (fixed pos : Nat) : Option Piece :=
  if horiz then b.cellN pos fixed else b.cellN fixed pos

theorem isOk_iff (o : MoveOutcome) : isOk o = true ↔ ∃ b, o = .result b none := by
  cases o with
  | panic => simp [isOk]
  | result b r =>
    cases r with
    | none => simp [isOk]
    | some e => simp [isOk]

/-- Claim C1: if `move_piece` returns an error (decode failure or validation
failure), the board it leaves behind is exactly the board it started from:
grid, turn, clocks, en-passant target, history and captured list included. -/
theorem C1_failed_move_leaves_board_unchanged (b : Board) (s : String) (b2 : Board)
    (e : Error) (h : movePiece b s = .result b2 (some e)) : b2 = b := by
  simp only [movePiece] at h
  split at h
  · simp at h
  · injection h with h1 h2
    exact h1.symm
  · split at h
    · simp at h
    · injection h with h1 h2
      exact h1.symm
    · split at h
      · simp at h
      · injection h with h1 h2
        cases h2

theorem C1_witness :
    movePiece startingBoard "e3e4" = .result startingBoard (some (.InvalidMove "No piece on square"))
      ∧ startingBoard = startingBoard :=
  ⟨by decide, C1_failed_move_leaves_board_unchanged startingBoard "e3e4" startingBoard
    (.InvalidMove "No piece on square") (by decide)⟩

/-- Claim C2 (failing input): `e2e4` from the starting position does set the
en-passant target to (4, 2) and raise the pawn's move count to 1, but the
diagonal capture `e4d5` also has `Move::distance` 2 (the distance is
taxicab), so after `e2e4, d7d5, e4d5` the code leaves the en-passant target
at (3, 3) instead of clearing it as the claim requires for every pawn move
that is not a two-square advance. -/
theorem C2_diagonal_capture_sets_en_passant :
    Option.map Board.en_passant (finalBoard (movePiece startingBoard "e2e4")) = some (some (4, 2))
      ∧ Option.map (fun b => b.pieces 4 3) (finalBoard (movePiece startingBoard "e2e4"))
          = some (some ⟨.Pawn, .White, 1⟩)
      ∧ Move.distance ⟨4, 3, 3, 4⟩ = 2
      ∧ Option.map Board.en_passant (finalBoard (replayMoves startingBoard ["e2e4", "d7d5", "e4d5"]))
          = some (some (3, 3)) := by
  refine ⟨by decide, by decide, by decide, by decide⟩

/-- Claim C4 (failing input): on the board of FEN `8/8/8/5K2/8/8/8/8 w - - 0 1`
the king move `f5g5` passes validation (an ordinary one-square move), yet
applying it panics: the destination file is 6, so `move_piece` runs the
castling rook relocation and unwraps the empty square h5. -/
theorem C4_validated_king_move_panics :
    Move.validate ⟨5, 4, 6, 4⟩ kingBoard = .ok
      ∧ decode (trimStr "f5g5") = some (.ok ⟨5, 4, 6, 4⟩)
      ∧ movePiece kingBoard "f5g5" = .panic := by
  refine ⟨by decide, by decide, by decide⟩

/-- Claim C5 (counterexample): after the accepted sequence `e2e4, g8f6` the
second move is a knight move, yet the board's en-passant target still holds
the value (4, 2) left by `e2e4` — not none as the claimed invariant says. -/
theorem C5_counterexample :
    isOk (replayMoves startingBoard ["e2e4", "g8f6"]) = true
      ∧ Option.map Board.en_passant (finalBoard (replayMoves startingBoard ["e2e4", "g8f6"]))
          = some (some (4, 2)) := by
  refine ⟨by decide, by decide⟩

/-- Claim C6 (counterexample): after `e2e4, d7d5` the move `e4e5` is a legal
one-square pawn advance onto an empty square and is accepted (clearing the
en-passant target), not rejected with `InvalidMove` as the claim states. -/
theorem C6_counterexample :
    Option.map Board.en_passant (finalBoard (replayMoves startingBoard ["e2e4", "d7d5", "e4e5"]))
      = some none := by
  decide

/-- Claim C6 (amended): from the standard starting position the sequence
`e2e4, d7d5, e4d5` is accepted and records the captured black pawn, and from
the position after `e2e4, d7d5` the move `e4e5` is also accepted (a
one-square advance onto an empty square); the failure the original claim
predicts for `e4e5` does not occur. -/
theorem C6_both_sequences_accepted :
    Option.map Board.captured (finalBoard (replayMoves startingBoard ["e2e4", "d7d5", "e4d5"]))
        = some [⟨.Pawn, .Black, 1⟩]
      ∧ isOk (replayMoves startingBoard ["e2e4", "d7d5", "e4e5"]) = true := by
  refine ⟨by decide, by decide⟩

/-- Claim C7 (counterexample): the zero-rank-delta pawn move `e2f2` from the
starting position fails with the first-move distance message, not with
`Pawn can only move forward` as the claim states for every non-forward
attempt. -/
theorem C7_counterexample :
    Move.validate_pawn ⟨4, 1, 5, 1⟩ startingBoard
        = .err (.InvalidMove
            "Pawn can only move one or two squares forward on the first move, attempted to move 0 squares")
      ∧ Move.validate_pawn ⟨4, 1, 5, 1⟩ startingBoard
          ≠ .err (.InvalidMove "Pawn can only move forward") := by
  refine ⟨by decide, by decide⟩

/-- Claim C8 (counterexample): from the starting position the castling
attempt `e1g1` has its destination g1 occupied by White's own knight, yet
validation fails with the king one-square message — the castling pattern
fails its emptiness condition before the shared own-capture check can ever
see the move. -/
theorem C8_counterexample :
    startingBoard.pieces 6 0 = some ⟨.Knight, .White, 0⟩
      ∧ startingBoard.turn = .White
      ∧ Move.validate ⟨4, 0, 6, 0⟩ startingBoard
          = .err (.InvalidMove "King can only move one square in any direction")
      ∧ Move.validate ⟨4, 0, 6, 0⟩ startingBoard
          ≠ .err (.InvalidMove "Can't capture your own piece") := by
  refine ⟨by decide, by decide, by decide, by decide⟩

/-- Claim C7 (amended): a pawn move whose rank delta is strictly backward
(White moving to a lower rank, Black to a higher one) fails with
`Pawn can only move forward`; a zero rank delta, however, passes that check
and instead fails the distance check, with the first-move message (for an
unmoved pawn) or the one-square message (otherwise). -/
theorem C7_pawn_forward_and_distance_messages (m : Move) (b : Board) (p : Piece)
    (hp : b.get? m.from_file m.from_rank = some (some p)) :
    (((p.color = Color.White ∧ m.to_rank < m.from_rank)
        ∨ (p.color = Color.Black ∧ m.from_rank < m.to_rank)) →
      m.validate_pawn b = .err (.InvalidMove "Pawn can only move forward"))
    ∧ (m.to_rank = m.from_rank →
      m.validate_pawn b = .err (.InvalidMove
        (if p.moves = 0 then
          "Pawn can only move one or two squares forward on the first move, attempted to move 0 squares"
         else "Pawn can only move one square forward"))) := by
  constructor
  · intro hc
    simp only [Move.validate_pawn, hp]
    rcases hc with ⟨hw, hlt⟩ | ⟨hb, hgt⟩
    · rw [if_pos ⟨hw, hlt⟩]
    · have h1 : ¬(p.color = Color.White ∧ m.to_rank < m.from_rank) := by
        rintro ⟨h1, _⟩
        rw [hb] at h1
        cases h1
      rw [if_neg h1, if_pos ⟨hb, hgt⟩]
  · intro heq
    simp only [Move.validate_pawn, hp]
    have h1 : ¬(p.color = Color.White ∧ m.to_rank < m.from_rank) := by
      rintro ⟨_, hlt⟩; omega
    have h2 : ¬(p.color = Color.Black ∧ m.from_rank < m.to_rank) := by
      rintro ⟨_, hgt⟩; omega
    have hdr : (m.to_rank : Int) - (m.from_rank : Int) = 0 := by
      rw [heq]; exact sub_self _
    rw [if_neg h1, if_neg h2]
    simp only [hdr, Int.natAbs_zero]
    by_cases hm : p.moves = 0
    · rw [if_pos ⟨hm, Or.inr Nat.zero_lt_one⟩, if_pos hm]
      decide
    · rw [if_neg (fun hand => hm hand.1), if_pos ⟨hm, Nat.zero_ne_one⟩, if_neg hm]

theorem C7_witness :
    Move.validate_pawn ⟨4, 1, 4, 0⟩ startingBoard
        = .err (.InvalidMove "Pawn can only move forward")
      ∧ Move.validate_pawn ⟨4, 1, 5, 1⟩ startingBoard
          = .err (.InvalidMove
              "Pawn can only move one or two squares forward on the first move, attempted to move 0 squares") := by
  constructor
  · exact (C7_pawn_forward_and_distance_messages ⟨4, 1, 4, 0⟩ startingBoard ⟨.Pawn, .White, 0⟩
      (by decide)).1 (Or.inl ⟨rfl, Nat.zero_lt_one⟩)
  · exact (C7_pawn_forward_and_distance_messages ⟨4, 1, 5, 1⟩ startingBoard ⟨.Pawn, .White, 0⟩
      (by decide)).2 rfl

/-- Claim C8 (amended): whenever the class-specific validation succeeds and
the destination square holds a piece of the mover's color, `validate` fails
with `Can't capture your own piece`.  A castling move whose destination is
occupied never reaches that shared check: the pattern's emptiness condition
fails first and the move is rejected by the one-square king rule, as `e1g1`
from the starting position shows. -/
theorem C8_own_capture_after_class_dispatch :
    (∀ (m : Move) (b : Board) (p t : Piece),
      b.get? m.from_file m.from_rank = some (some p) →
      p.color = b.turn →
      m.classValidate p b = .ok →
      b.get? m.to_file m.to_rank = some (some t) →
      t.color = b.turn →
      m.validate b = .err (.InvalidMove "Can't capture your own piece"))
    ∧ Move.validate ⟨4, 0, 6, 0⟩ startingBoard
        = .err (.InvalidMove "King can only move one square in any direction") := by
  constructor
  · intro m b p t hfrom hcolor hclass hto htcolor
    simp only [Move.validate, hfrom, hclass, hto]
    rw [if_neg (by simp [hcolor]), if_pos htcolor]
  · decide

theorem C8_witness :
    Move.validate ⟨1, 0, 3, 1⟩ startingBoard
      = .err (.InvalidMove "Can't capture your own piece") :=
  C8_own_capture_after_class_dispatch.1 ⟨1, 0, 3, 1⟩ startingBoard
    ⟨.Knight, .White, 0⟩ ⟨.Pawn, .White, 0⟩ (by decide) (by decide) (by decide)
    (by decide) (by decide)

theorem decode_ok_inBoard (s : String) (m : Move)
    (h : decode s = some (.ok m)) : m.inBoard := by
  simp only [decode] at h
  split at h
  · split at h
    · cases h
    · split at h
      · cases h
      · rename_i hbounds
        injection h with h1
        injection h1 with h2
        rw [← h2]
        simp only [Move.inBoard]
        omega
  · cases h

theorem movePiece_empty_board (s : String) (m : Move)
    (hdec : decode (trimStr s) = some (.ok m)) :
    movePiece Board.new s = .result Board.new (some (.InvalidMove "No piece on square")) := by
  have hb := decode_ok_inBoard _ _ hdec
  have h1 : Board.new.get? m.from_file m.from_rank = some none := by
    simp only [Board.get?, Board.new]
    rw [dif_pos ⟨hb.1, hb.2.1⟩]
  simp only [movePiece, hdec, Move.validate, h1]

theorem replayMoves_skip (b : Board) (l1 rest : List String)
    (h : ∀ x ∈ l1, (trimStr x).length = 0) :
    replayMoves b (l1 ++ rest) = replayMoves b rest := by
  induction l1 with
  | nil => rfl
  | cons x l ih =>
    have hx : (trimStr x).length = 0 := h x (List.mem_cons_self x l)
    simp only [List.cons_append, replayMoves]
    rw [if_neg (by omega)]
    exact ih (fun y hy => h y (List.mem_cons_of_mem x hy))

/-- Claim C3: `Board::load` resets the board with `reset()`, i.e. to
`Board::new()` — an empty board — before replaying the tokens of the file,
so as soon as the replay reaches a well-formed move token it fails with
`InvalidMove("No piece on square")` (the preceding tokens being blank): a
previously saved game, whose tokens are all well-formed, can never be
successfully reloaded. -/
theorem C3_load_always_fails_no_piece (b : Board) (contents : String)
    (l1 l2 : List String) (t : String) (mv : Move)
    (hsplit : splitSpaces (trimStr contents) = l1 ++ t :: l2)
    (hblank : ∀ x ∈ l1, (trimStr x).length = 0)
    (hne : (trimStr t).length > 0)
    (hdec : decode (trimStr (trimStr t)) = some (.ok mv)) :
    loadContents b contents = .result Board.new (some (.InvalidMove "No piece on square")) := by
  simp only [loadContents, hsplit]
  rw [replayMoves_skip Board.new l1 (t :: l2) hblank]
  simp only [replayMoves]
  rw [if_pos hne, movePiece_empty_board (trimStr t) mv hdec]

theorem C3_witness :
    loadContents startingBoard "e2e4 e7e5"
      = .result Board.new (some (.InvalidMove "No piece on square")) :=
  C3_load_always_fails_no_piece startingBoard "e2e4 e7e5" [] ["e7e5"] "e2e4"
    ⟨4, 1, 4, 3⟩ (by decide) (by intro x hx; cases hx) (by decide) (by decide)

theorem epCaptureStep_en_passant (b : Board) (piece : Piece) (m : Move) (b2 : Board)
    (h : epCaptureStep b piece m = some b2) : b2.en_passant = b.en_passant := by
  simp only [epCaptureStep] at h
  repeat' split at h
  all_goals cases h
  all_goals rfl

theorem captureStep_en_passant (b : Board) (target : Option Piece) :
    (captureStep b target).en_passant = b.en_passant := by
  cases target <;> rfl

theorem pawnStep_non_pawn (b : Board) (piece : Piece) (m : Move)
    (hcls : piece.cls ≠ Class.Pawn) : pawnStep b piece m = some b := by
  simp only [pawnStep, if_neg hcls]

theorem castleStep_en_passant (b : Board) (piece : Piece) (m : Move) (b2 : Board)
    (h : castleStep b piece m = some b2) : b2.en_passant = b.en_passant := by
  simp only [castleStep] at h
  repeat' split at h
  all_goals cases h
  all_goals rfl

theorem applyCore_non_pawn_en_passant (b : Board) (data : String) (m : Move) (p : Piece)
    (hp : b.get? m.from_file m.from_rank = some (some p)) (hcls : p.cls ≠ Class.Pawn)
    (b2 : Board) (h : applyCore b data m = some b2) : b2.en_passant = b.en_passant := by
  simp only [applyCore] at h
  simp only [show ({ b with halfmove_clock := b.halfmove_clock + 1 } : Board).get? m.from_file
      m.from_rank = some (some p) from hp] at h
  cases h1 : epCaptureStep { b with halfmove_clock := b.halfmove_clock + 1 } p m with
  | none => simp [h1] at h
  | some bb2 =>
    simp only [h1] at h
    cases h2 : bb2.get? m.to_file m.to_rank with
    | none => simp [h2] at h
    | some target =>
      simp only [h2] at h
      simp only [pawnStep_non_pawn (captureStep bb2 target) p m hcls] at h
      cases h4 : castleStep (captureStep bb2 target) p m with
      | none => simp [h4] at h
      | some bb5 =>
        simp only [h4] at h
        injection h with h5
        rw [← h5]
        show (finishStep bb5 p data m).en_passant = b.en_passant
        show bb5.en_passant = b.en_passant
        rw [castleStep_en_passant _ _ _ _ h4, captureStep_en_passant,
            epCaptureStep_en_passant _ _ _ _ h1]

/-- Claim C5 (amended): an accepted move whose moving piece is not a pawn
leaves the en-passant target exactly as it was before the move — the
en-passant field is only ever written inside the pawn branch of
`move_piece`, so a stale target survives every accepted non-pawn move
instead of being cleared to none. -/
theorem C5_non_pawn_preserves_en_passant (b : Board) (s : String) (m : Move) (p : Piece)
    (hdec : decode (trimStr s) = some (.ok m))
    (hp : b.get? m.from_file m.from_rank = some (some p))
    (hcls : p.cls ≠ Class.Pawn) :
    ∀ b2, movePiece b s = .result b2 none → b2.en_passant = b.en_passant := by
  intro b2 h
  simp only [movePiece, hdec] at h
  split at h
  · cases h
  · injection h with h1 h2
    cases h2
  · split at h
    · cases h
    · injection h with h1 h2
      rw [← h1]
      exact (applyCore_non_pawn_en_passant b (trimStr s) m p hp hcls _ (by assumption)).symm ▸ rfl

theorem C5_witness :
    Option.map Board.en_passant (finalBoard (movePiece epBoard "g1f3")) = some (some (4, 2)) := by
  obtain ⟨b2, hb2⟩ := (isOk_iff (movePiece epBoard "g1f3")).mp (by decide)
  have h := C5_non_pawn_preserves_en_passant epBoard "g1f3" ⟨6, 0, 5, 2⟩
    ⟨.Knight, .White, 0⟩ (by decide) (by decide) (by decide) b2 hb2
  rw [hb2]
  show Option.map Board.en_passant (some b2) = some (some (4, 2))
  simp only [Option.map_some', h]
  rfl

theorem fileChar_spec (c : Char) (h : c ∈ fileChars) :
    97 ≤ (Char.toLower c).toNat ∧ (Char.toLower c).toNat - 97 ≤ 7 ∧
      Char.ofNat (((Char.toLower c).toNat - 97 + 97) % 256) = Char.toLower c := by
  fin_cases h <;> exact ⟨by decide, by decide, by decide⟩

theorem rankChar_spec (c : Char) (h : c ∈ rankChars) :
    49 ≤ (Char.toLower c).toNat ∧ (Char.toLower c).toNat - 49 ≤ 7 ∧
      Char.ofNat (((Char.toLower c).toNat - 49 + 49) % 256) = Char.toLower c := by
  fin_cases h <;> exact ⟨by decide, by decide, by decide⟩

/-- Claim C9: decoding any 4-character string made of a file letter (a-h,
either case), a rank digit (1-8), a file letter and a rank digit succeeds,
and encoding the resulting move yields exactly the lowercase-normalized
input string. -/
theorem C9_decode_encode_roundtrip (c0 c1 c2 c3 : Char)
    (h0 : c0 ∈ fileChars) (h1 : c1 ∈ rankChars) (h2 : c2 ∈ fileChars) (h3 : c3 ∈ rankChars) :
    ∃ mv : Move, decode (String.mk [c0, c1, c2, c3]) = some (.ok mv)
      ∧ encode mv = lowercaseStr (String.mk [c0, c1, c2, c3]) := by
  obtain ⟨ha0, hb0, hc0⟩ := fileChar_spec c0 h0
  obtain ⟨ha1, hb1, hc1⟩ := rankChar_spec c1 h1
  obtain ⟨ha2, hb2, hc2⟩ := fileChar_spec c2 h2
  obtain ⟨ha3, hb3, hc3⟩ := rankChar_spec c3 h3
  refine ⟨⟨(Char.toLower c0).toNat - 97, (Char.toLower c1).toNat - 49,
           (Char.toLower c2).toNat - 97, (Char.toLower c3).toNat - 49⟩, ?_, ?_⟩
  · have hdata : (String.mk [c0, c1, c2, c3]).data = [c0, c1, c2, c3] := rfl
    simp only [decode, hdata, List.map, List.get?]
    rw [if_neg (by omega), if_neg (by omega)]
  · have hdata : (String.mk [c0, c1, c2, c3]).data = [c0, c1, c2, c3] := rfl
    simp only [encode, lowercaseStr, hdata, List.map]
    rw [hc0, hc1, hc2, hc3]

theorem C9_witness :
    ∃ mv : Move, decode (String.mk ['E', '2', 'e', '4']) = some (.ok mv)
      ∧ encode mv = lowercaseStr (String.mk ['E', '2', 'e', '4']) :=
  C9_decode_encode_roundtrip 'E' '2' 'e' '4' (by decide) (by decide) (by decide) (by decide)

theorem getI?_eq_cellN (b : Board) (f r : Int) (h : 0 ≤ f ∧ f < 8 ∧ 0 ≤ r ∧ r < 8) :
    b.getI? f r = some (b.cellN f.toNat r.toNat) := by
  simp only [Board.getI?, Board.cellN]
  rw [dif_pos h, dif_pos (by omega : f.toNat < 8 ∧ r.toNat < 8)]

theorem lineCell_eq_lineCellN (b : Board) (horiz : Bool) (fixed pos : Int)
    (hfix : 0 ≤ fixed ∧ fixed < 8) (hpos : 0 ≤ pos ∧ pos < 8) :
    lineCell b horiz fixed pos = some (lineCellN b horiz fixed.toNat pos.toNat) := by
  cases horiz with
  | false =>
    simp only [lineCell, lineCellN]
    exact getI?_eq_cellN b fixed pos ⟨hfix.1, hfix.2, hpos.1, hpos.2⟩
  | true =>
    simp only [lineCell, lineCellN]
    exact getI?_eq_cellN b pos fixed ⟨hpos.1, hpos.2, hfix.1, hfix.2⟩

theorem walkLine_blocked (b : Board) (horiz : Bool) (fixed d : Int) (e : Error)
    (hd : d = 1 ∨ d = -1) (hfix : 0 ≤ fixed ∧ fixed < 8) :
    ∀ (k fuel : Nat) (pos toPos : Int),
      toPos = pos + d * k →
      k ≤ fuel →
      (∀ j : Nat, j < k → 0 ≤ pos + d * j ∧ pos + d * j < 8) →
      (∃ j : Nat, j < k ∧ lineCellN b horiz fixed.toNat (pos + d * j).toNat ≠ none) →
      walkLine b horiz fixed pos toPos d e fuel = .err e := by
  intro k
  induction k with
  | zero =>
    intro fuel pos toPos _ _ _ hocc
    obtain ⟨j, hj, _⟩ := hocc
    omega
  | succ k ih =>
    intro fuel pos toPos htoPos hfuel hub hocc
    cases fuel with
    | zero => omega
    | succ fuel =>
      have hne : pos ≠ toPos := by
        rcases hd with rfl | rfl <;> (rw [htoPos]; push_cast; omega)
      have hb0 : 0 ≤ pos ∧ pos < 8 := by
        have := hub 0 (Nat.succ_pos k)
        simpa using this
      rw [walkLine, if_neg hne, lineCell_eq_lineCellN b horiz fixed pos hfix hb0]
      cases hc : lineCellN b horiz fixed.toNat pos.toNat with
      | some p => rfl
      | none =>
        apply ih fuel (pos + d) toPos
        · rw [htoPos]; push_cast; ring
        · omega
        · intro j hj
          have := hub (j + 1) (by omega)
          have harith : pos + d * ((j : Int) + 1) = pos + d + d * j := by ring
          push_cast at this
          rw [harith] at this
          exact this
        · obtain ⟨j, hj, hp⟩ := hocc
          cases j with
          | zero =>
            exfalso
            apply hp
            have : pos + d * ((0 : Nat) : Int) = pos := by push_cast; ring
            rw [this, hc]
          | succ j =>
            refine ⟨j, by omega, ?_⟩
            have harith : pos + d * (((j + 1 : Nat)) : Int) = pos + d + d * j := by
              push_cast; ring
            rw [harith] at hp
            exact hp

theorem walkDiag_blocked (b : Board) (fd rd : Int) (e : Error)
    (hfd : fd = 1 ∨ fd = -1) (hrd : rd = 1 ∨ rd = -1) :
    ∀ (k fuel : Nat) (file rank toFile toRank : Int),
      toFile = file + fd * k →
      toRank = rank + rd * k →
      k ≤ fuel →
      (∀ j : Nat, j < k →
        (0 ≤ file + fd * j ∧ file + fd * j < 8) ∧ (0 ≤ rank + rd * j ∧ rank + rd * j < 8)) →
      (∃ j : Nat, j < k ∧
        b.cellN (file + fd * j).toNat (rank + rd * j).toNat ≠ none) →
      walkDiag b file rank toFile toRank fd rd e fuel = .err e := by
  intro k
  induction k with
  | zero =>
    intro fuel file rank toFile toRank _ _ _ _ hocc
    obtain ⟨j, hj, _⟩ := hocc
    omega
  | succ k ih =>
    intro fuel file rank toFile toRank htoFile htoRank hfuel hub hocc
    cases fuel with
    | zero => omega
    | succ fuel =>
      have hneF : file ≠ toFile := by
        rcases hfd with rfl | rfl <;> (rw [htoFile]; push_cast; omega)
      have hneR : rank ≠ toRank := by
        rcases hrd with rfl | rfl <;> (rw [htoRank]; push_cast; omega)
      have hb0 := hub 0 (Nat.succ_pos k)
      simp only [Nat.cast_zero, mul_zero, add_zero] at hb0
      rw [walkDiag, if_pos ⟨hneF, hneR⟩,
        getI?_eq_cellN b file rank ⟨hb0.1.1, hb0.1.2, hb0.2.1, hb0.2.2⟩]
      cases hc : b.cellN file.toNat rank.toNat with
      | some p => rfl
      | none =>
        apply ih fuel (file + fd) (rank + rd) toFile toRank
        · rw [htoFile]; push_cast; ring
        · rw [htoRank]; push_cast; ring
        · omega
        · intro j hj
          have := hub (j + 1) (by omega)
          have h1 : file + fd * ((j + 1 : Nat) : Int) = file + fd + fd * j := by
            push_cast; ring
          have h2 : rank + rd * ((j + 1 : Nat) : Int) = rank + rd + rd * j := by
            push_cast; ring
          rw [h1, h2] at this
          exact this
        · obtain ⟨j, hj, hp⟩ := hocc
          cases j with
          | zero =>
            exfalso
            apply hp
            have h1 : file + fd * ((0 : Nat) : Int) = file := by push_cast; ring
            have h2 : rank + rd * ((0 : Nat) : Int) = rank := by push_cast; ring
            rw [h1, h2, hc]
          | succ j =>
            refine ⟨j, by omega, ?_⟩
            have h1 : file + fd * ((j + 1 : Nat) : Int) = file + fd + fd * j := by
              push_cast; ring
            have h2 : rank + rd * ((j + 1 : Nat) : Int) = rank + rd + rd * j := by
              push_cast; ring
            rw [h1, h2] at hp
            exact hp

theorem straight_walk_blocked (b : Board) (horiz : Bool) (fixed a c : Nat) (e : Error)
    (hfix : fixed < 8) (ha : a < 8) (hc : c < 8) (r : Nat) (hbet : betN a c r)
    (hocc : lineCellN b horiz fixed r ≠ none) :
    walkLine b horiz (fixed : Int) ((a : Int) + (if c > a then 1 else -1)) (c : Int)
      (if c > a then 1 else -1) e 16 = .err e := by
  rcases hbet with ⟨har, hrc⟩ | ⟨hcr, hra⟩
  · rw [if_pos (by omega : c > a)]
    apply walkLine_blocked b horiz (fixed : Int) 1 e (Or.inl rfl) ⟨by omega, by omega⟩
      (c - a - 1) 16 ((a : Int) + 1) (c : Int)
    · omega
    · omega
    · intro j hj; omega
    · refine ⟨r - a - 1, by omega, ?_⟩
      have harith : ((a : Int) + 1 + 1 * ((r - a - 1 : Nat) : Int)) = (r : Int) := by
        omega
      rw [harith, show ((fixed : Int)).toNat = fixed by omega,
        show ((r : Int)).toNat = r by omega]
      exact hocc
  · rw [if_neg (by omega : ¬ c > a)]
    apply walkLine_blocked b horiz (fixed : Int) (-1) e (Or.inr rfl) ⟨by omega, by omega⟩
      (a - c - 1) 16 ((a : Int) + -1) (c : Int)
    · omega
    · omega
    · intro j hj; omega
    · refine ⟨a - r - 1, by omega, ?_⟩
      have harith : ((a : Int) + -1 + (-1) * ((a - r - 1 : Nat) : Int)) = (r : Int) := by
        omega
      rw [harith, show ((fixed : Int)).toNat = fixed by omega,
        show ((r : Int)).toNat = r by omega]
      exact hocc

theorem diag_walk_blocked (b : Board) (m : Move) (e : Error) (hin : m.inBoard)
    (hgeom : ((m.to_file : Int) - m.from_file).natAbs = ((m.to_rank : Int) - m.from_rank).natAbs)
    (hblocked : diagBlocked b m) :
    walkDiag b ((m.from_file : Int) + m.fdir) ((m.from_rank : Int) + m.rdir)
      (m.to_file : Int) (m.to_rank : Int) m.fdir m.rdir e 16 = .err e := by
  obtain ⟨kk, hkk0, hkklt, hocc⟩ := hblocked
  obtain ⟨hf8, hr8, htf8, htr8⟩ := hin
  have hge2 : 2 ≤ ((m.to_file : Int) - m.from_file).natAbs := by omega
  have hneF : m.to_file ≠ m.from_file := by
    intro h
    rw [h] at hge2
    omega
  have hfd : m.fdir = 1 ∨ m.fdir = -1 := by
    unfold Move.fdir; split <;> simp
  have hrd : m.rdir = 1 ∨ m.rdir = -1 := by
    unfold Move.rdir; split <;> simp
  have hfdval : (m.to_file : Int)
      = (m.from_file : Int) + m.fdir * (((m.to_file : Int) - m.from_file).natAbs : Int) := by
    unfold Move.fdir; split <;> omega
  have hrdval : (m.to_rank : Int)
      = (m.from_rank : Int) + m.rdir * (((m.to_file : Int) - m.from_file).natAbs : Int) := by
    have hgeR : 2 ≤ ((m.to_rank : Int) - m.from_rank).natAbs := by omega
    rw [hgeom]
    unfold Move.rdir; split <;> omega
  rcases hfd with hF | hF <;> rcases hrd with hR | hR <;>
    (rw [hF] at hfdval hocc ⊢
     rw [hR] at hrdval hocc ⊢
     apply walkDiag_blocked b _ _ e (by omega) (by omega)
       (((m.to_file : Int) - m.from_file).natAbs - 1) 16
     · omega
     · omega
     · omega
     · intro j hj
       omega
     · refine ⟨kk - 1, by omega, ?_⟩
       convert hocc using 3 <;> omega)

/-- Claim C10: a Rook, Bishop or Queen move satisfying that class's
geometry (shared file or rank for the Rook, equal-absolute-delta diagonal
for the Bishop, either for the Queen) whose path strictly between origin
and destination contains any piece fails validation with that class's
path-blocked message. -/
theorem C10_sliding_path_blocked (b : Board) (m : Move) (hin : m.inBoard) :
    (straightBlocked b m →
      m.validate_rook b = .err (.InvalidMove "Rook can not move through pieces"))
    ∧ ((((m.to_file : Int) - m.from_file).natAbs = ((m.to_rank : Int) - m.from_rank).natAbs
          ∧ diagBlocked b m) →
      m.validate_bishop b = .err (.InvalidMove "Bishop can not move through pieces"))
    ∧ (straightBlocked b m →
      m.validate_queen b = .err (.InvalidMove "Queen can not move through pieces"))
    ∧ ((((m.to_file : Int) - m.from_file).natAbs = ((m.to_rank : Int) - m.from_rank).natAbs
          ∧ diagBlocked b m) →
      m.validate_queen b = .err (.InvalidMove "Queen can not move through pieces")) := by
  obtain ⟨hf8, hr8, htf8, htr8⟩ := hin
  refine ⟨?_, ?_, ?_, ?_⟩
  · intro hsb
    rcases hsb with ⟨hff, r, hbet, hocc⟩ | ⟨hfr, f, hbet, hocc⟩
    · simp only [Move.validate_rook]
      rw [if_neg (fun hand => hand.1 hff), if_pos hff]
      exact straight_walk_blocked b false m.from_file m.from_rank m.to_rank _ hf8 hr8 htr8
        r hbet hocc
    · have hne : ¬ m.from_file = m.to_file := by
        rcases hbet with ⟨h1, h2⟩ | ⟨h1, h2⟩ <;> omega
      simp only [Move.validate_rook]
      rw [if_neg (fun hand => hand.2 hfr), if_neg hne]
      exact straight_walk_blocked b true m.from_rank m.from_file m.to_file _ hr8 hf8 htf8
        f hbet hocc
  · intro hd
    obtain ⟨hgeom, hdb⟩ := hd
    simp only [Move.validate_bishop]
    rw [if_neg (fun hne => hne hgeom)]
    exact diag_walk_blocked b m _ ⟨hf8, hr8, htf8, htr8⟩ hgeom hdb
  · intro hsb
    rcases hsb with ⟨hff, r, hbet, hocc⟩ | ⟨hfr, f, hbet, hocc⟩
    · simp only [Move.validate_queen]
      rw [if_neg (fun hand => hand.1 hff), if_pos hff]
      exact straight_walk_blocked b false m.from_file m.from_rank m.to_rank _ hf8 hr8 htr8
        r hbet hocc
    · have hne : ¬ m.from_file = m.to_file := by
        rcases hbet with ⟨h1, h2⟩ | ⟨h1, h2⟩ <;> omega
      simp only [Move.validate_queen]
      rw [if_neg (fun hand => hand.2.1 hfr), if_neg hne, if_pos hfr]
      exact straight_walk_blocked b true m.from_rank m.from_file m.to_file _ hr8 hf8 htf8
        f hbet hocc
  · intro hd
    obtain ⟨hgeom, hdb⟩ := hd
    obtain ⟨kk, hkk0, hkklt, _⟩ := id hdb
    have hneF : ¬ m.from_file = m.to_file := by omega
    have hgeR : kk < ((m.to_rank : Int) - m.from_rank).natAbs := by omega
    have hneR : ¬ m.from_rank = m.to_rank := by omega
    simp only [Move.validate_queen]
    rw [if_neg (fun hand => hand.2.2 hgeom), if_neg hneF, if_neg hneR]
    exact diag_walk_blocked b m _ ⟨hf8, hr8, htf8, htr8⟩ hgeom hdb

theorem C10_witness :
    Move.validate_rook ⟨0, 0, 0, 2⟩ startingBoard
        = .err (.InvalidMove "Rook can not move through pieces")
      ∧ Move.validate_bishop ⟨2, 0, 4, 2⟩ startingBoard
          = .err (.InvalidMove "Bishop can not move through pieces")
      ∧ Move.validate_queen ⟨3, 0, 3, 2⟩ startingBoard
          = .err (.InvalidMove "Queen can not move through pieces")
      ∧ Move.validate_queen ⟨3, 0, 5, 2⟩ startingBoard
          = .err (.InvalidMove "Queen can not move through pieces") := by
  refine ⟨?_, ?_, ?_, ?_⟩
  · exact (C10_sliding_path_blocked startingBoard ⟨0, 0, 0, 2⟩ ⟨by decide, by decide, by decide, by decide⟩).1
      (Or.inl ⟨rfl, 1, Or.inl ⟨by decide, by decide⟩, by decide⟩)
  · exact (C10_sliding_path_blocked startingBoard ⟨2, 0, 4, 2⟩ ⟨by decide, by decide, by decide, by decide⟩).2.1
      ⟨by decide, 1, by decide, by decide, by decide⟩
  · exact (C10_sliding_path_blocked startingBoard ⟨3, 0, 3, 2⟩ ⟨by decide, by decide, by decide, by decide⟩).2.2.1
      (Or.inl ⟨rfl, 1, Or.inl ⟨by decide, by decide⟩, by decide⟩)
  · exact (C10_sliding_path_blocked startingBoard ⟨3, 0, 5, 2⟩ ⟨by decide, by decide, by decide, by decide⟩).2.2.2
      ⟨by decide, 1, by decide, by decide, by decide⟩

end Chess
